import Mathlib

/-
Verification of the MCP connection-supervision layer of the agenticflow
repository (src/services/mcp_client.py and src/config/mcp_config.py),
as a shallow embedding in Lean 4.

Modelling conventions:
  - Python floats (timeouts, delays) are modelled as rationals.
  - The external world (subprocess spawn, protocol handshake, tool listing,
    tool invocation, session close) is modelled by explicit outcome
    parameters passed to each operation: the embedded function describes
    exactly what the source code does for each possible outcome of its
    awaited calls.
  - Exceptions raised by the source are modelled with Except; a function
    that the source guarantees never to raise is total and returns a plain
    value.
  - Python dicts that the source iterates in insertion order are modelled
    as association lists (List (String × _)) with insertion-order append.
-/

namespace AgenticFlow

/-- Configuration record for one MCP server, from MCPServerConfig in
src/config/mcp_config.py. -/
structure MCPServerConfig where
  name : String
  command : String
  args : List String
  env : List (String × String)
  enabled : Bool
  timeout : ℚ
  retry_attempts : Nat
  retry_delay : ℚ
  description : String
deriving Repr, DecidableEq

/-- Outcome of the environment for one call to MCPServerConnection.connect:
either the stdio transport times out (asyncio.TimeoutError from wait_for),
the spawn raises some other exception, the handshake (session.initialize)
raises after the session object was already assigned, or everything up to
the tool listing succeeds.  In the success case, `listing = some ts` means
session.list_tools returned the names `ts`, and `listing = none` means
list_tools raised (caught inside the listing helper). -/
inductive ConnectOutcome where
  | timeoutErr
  | spawnError (msg : String)
  | handshakeError (msg : String)
  | success (listing : Option (List String))
deriving Repr, DecidableEq

/-- Mutable state of MCPServerConnection (src/services/mcp_client.py):
the owned config, the optional session handle, the connected flag, and the
set of available tool names (modelled as a list, queried by membership). -/
structure MCPServerConnection where
  config : MCPServerConfig
  session : Option Unit
  is_connected : Bool
  available_tools : List String
deriving Repr, DecidableEq

/-- Embedding of MCPServerConnection._update_available_tools: if there is no
session it returns immediately (leaving the previous listing in place);
otherwise a successful list_tools call replaces available_tools with the
returned names, and a raised exception is caught and available_tools is set
to the empty set. -/
def updateAvailableTools (c : MCPServerConnection) (listing : Option (List String)) :
    MCPServerConnection :=
  if c.session.isNone then c
  else
    match listing with
    | some tools => { c with available_tools := tools }
    | none => { c with available_tools := [] }

/-- Embedding of MCPServerConnection.connect.  Returns the boolean result
together with the connection state after the call.  If already connected it
returns true unchanged; on timeout of the transport setup it returns false
(the session was never assigned); on a spawn error it returns false
unchanged; on a handshake error the session field has already been assigned
when the exception is caught, so the state keeps the session handle while
is_connected stays false; on success the session is assigned, the tool
listing is refreshed, is_connected becomes true and true is returned.
The source catches every exception, so the embedding is a total function
into Bool. -/
def connect (c : MCPServerConnection) (o : ConnectOutcome) :
    Bool × MCPServerConnection :=
  if c.is_connected then (true, c)
  else
    match o with
    | .timeoutErr => (false, c)
    | .spawnError _ => (false, c)
    | .handshakeError _ => (false, { c with session := some () })
    | .success listing =>
        let c1 : MCPServerConnection := { c with session := some () }
        let c2 := updateAvailableTools c1 listing
        (true, { c2 with is_connected := true })

/-- One content item of an MCP CallToolResult: its text, plus the rest of
its structured payload (type, annotations, ...), which the source never
forwards. -/
structure ContentItem where
  text : String
  structured : String
deriving Repr, DecidableEq

/-- Result object returned by session.call_tool in the mcp library: a list
of content items. -/
structure CallToolResult where
  content : List ContentItem
deriving Repr, DecidableEq

/-- Value actually returned by MCPServerConnection.call_tool on success:
either the text string of the first content item, or the empty dict used
when the result has no content. -/
inductive ToolReturn where
  | str (s : String)
  | emptyDict
deriving Repr, DecidableEq

/-- Outcome of the environment for one session.call_tool invocation:
either the session returns a result object, or it raises. -/
inductive InvokeOutcome where
  | ok (r : CallToolResult)
  | raises (msg : String)
deriving Repr, DecidableEq

/-- Errors raised by the embedded layer: RuntimeError for a call on a
non-connected server, ValueError for a tool the server does not list, the
re-raised session exception for a failed invocation, and the supervisor's
ValueError when no connected server can serve a tool. -/
inductive McpError where
  | notConnected (server : String)
  | toolUnavailable (tool : String) (server : String)
  | invocationError (msg : String)
  | toolNotFound (tool : String)
deriving Repr, DecidableEq

/-- Embedding of MCPServerConnection.call_tool.  Raises notConnected when
the connected flag is down or the session handle is absent; raises
toolUnavailable when the tool is not in available_tools; otherwise forwards
to the session and returns the text of the first content item (or an empty
dict when there is no content), re-raising a session failure.  The source
performs no assignment to self anywhere in this method, so the returned
state is the input state in every branch. -/
def MCPServerConnection.call_tool (c : MCPServerConnection) (tool : String)
    (o : InvokeOutcome) : Except McpError ToolReturn × MCPServerConnection :=
  if c.is_connected = false ∨ c.session.isNone then
    (.error (.notConnected c.config.name), c)
  else if tool ∉ c.available_tools then
    (.error (.toolUnavailable tool c.config.name), c)
  else
    match o with
    | .ok r =>
        match r.content with
        | [] => (.ok .emptyDict, c)
        | item :: _ => (.ok (.str item.text), c)
    | .raises msg => (.error (.invocationError msg), c)

/-- Embedding of MCPServerConnection.disconnect.  The close-outcome flag
records whether session.close would have succeeded; the source swallows a
close failure and runs the finally block either way, so the state change is
identical for both values: if a session is present it is dropped, the
connected flag is cleared and available_tools is emptied; with no session
the method does nothing. -/
def disconnect (c : MCPServerConnection) (_closeOk : Bool) : MCPServerConnection :=
  if c.session.isSome then
    { c with session := none, is_connected := false, available_tools := [] }
  else c

/-- One operation that external code can perform on a ServerConnection,
together with the environment outcome it runs against. -/
inductive ConnOp where
  | connectOp (o : ConnectOutcome)
  | refreshOp (listing : Option (List String))
  | invokeOp (tool : String) (o : InvokeOutcome)
  | disconnectOp (closeOk : Bool)
deriving Repr, DecidableEq

/-- State transition of one ConnOp on a connection. -/
def applyOp (c : MCPServerConnection) (op : ConnOp) : MCPServerConnection :=
  match op with
  | .connectOp o => (connect c o).2
  | .refreshOp l => updateAvailableTools c l
  | .invokeOp t o => (MCPServerConnection.call_tool c t o).2
  | .disconnectOp ok => disconnect c ok

/-- Freshly constructed MCPServerConnection (its __init__): no session,
not connected, no tools. -/
def initialConnection (cfg : MCPServerConfig) : MCPServerConnection :=
  { config := cfg, session := none, is_connected := false, available_tools := [] }

/-- State reached from a fresh connection by a sequence of operations. -/
def runOps (cfg : MCPServerConfig) (ops : List ConnOp) : MCPServerConnection :=
  ops.foldl applyOp (initialConnection cfg)

/-- Reachability invariant of a single connection: a connected state always
holds a session handle, and a state without a session holds no tools. -/
def ConnInv (c : MCPServerConnection) : Prop :=
  (c.is_connected = true → c.session.isSome) ∧
    (c.session = none → c.available_tools = [])

theorem connInv_initial (cfg : MCPServerConfig) : ConnInv (initialConnection cfg) := by
  constructor <;> intro h <;> simp [initialConnection] at h ⊢

theorem call_tool_snd (c : MCPServerConnection) (t : String) (o : InvokeOutcome) :
    (MCPServerConnection.call_tool c t o).2 = c := by
  unfold MCPServerConnection.call_tool
  split
  · rfl
  · split
    · rfl
    · rcases o with ⟨r⟩ | m
      · rcases hr : r.content with _ | ⟨item, rest⟩ <;> simp [hr]
      · rfl

theorem connInv_applyOp (c : MCPServerConnection) (op : ConnOp)
    (h : ConnInv c) : ConnInv (applyOp c op) := by
  obtain ⟨h1, h2⟩ := h
  cases op with
  | connectOp o =>
      by_cases hc : c.is_connected
      · have hstep : applyOp c (.connectOp o) = c := by
          cases o <;> simp [applyOp, connect, hc]
        rw [hstep]
        exact ⟨h1, h2⟩
      · cases o with
        | timeoutErr =>
            have hstep : applyOp c (.connectOp .timeoutErr) = c := by
              simp [applyOp, connect, hc]
            rw [hstep]
            exact ⟨h1, h2⟩
        | spawnError m =>
            have hstep : applyOp c (.connectOp (.spawnError m)) = c := by
              simp [applyOp, connect, hc]
            rw [hstep]
            exact ⟨h1, h2⟩
        | handshakeError m =>
            constructor <;> simp [applyOp, connect, hc]
        | success listing =>
            cases listing <;>
              constructor <;> simp [applyOp, connect, hc, updateAvailableTools]
  | refreshOp l =>
      rcases hs : c.session with _ | u
      · have hstep : applyOp c (.refreshOp l) = c := by
          simp [applyOp, updateAvailableTools, hs]
        rw [hstep]
        exact ⟨h1, h2⟩
      · cases l <;> constructor <;> simp [applyOp, updateAvailableTools, hs]
  | invokeOp t o =>
      have hstep : applyOp c (.invokeOp t o) = c := call_tool_snd c t o
      rw [hstep]
      exact ⟨h1, h2⟩
  | disconnectOp ok =>
      rcases hs : c.session with _ | u
      · have hstep : applyOp c (.disconnectOp ok) = c := by
          simp [applyOp, disconnect, hs]
        rw [hstep]
        exact ⟨h1, h2⟩
      · constructor <;> simp [applyOp, disconnect, hs]

theorem connInv_runOps (cfg : MCPServerConfig) (ops : List ConnOp) :
    ConnInv (runOps cfg ops) := by
  rw [runOps]
  induction ops using List.reverseRecOn with
  | nil => exact connInv_initial cfg
  | append_singleton l op ih =>
      rw [List.foldl_append]
      exact connInv_applyOp _ _ ih

theorem call_tool_fst_not_connected (c : MCPServerConnection) (t : String)
    (o : InvokeOutcome) (h : c.is_connected = false) :
    (MCPServerConnection.call_tool c t o).1 = .error (.notConnected c.config.name) := by
  unfold MCPServerConnection.call_tool
  simp [h]

theorem call_tool_fst_unavailable (c : MCPServerConnection) (t : String)
    (o : InvokeOutcome) (hc : c.is_connected = true) (hs : c.session.isSome)
    (ht : t ∉ c.available_tools) :
    (MCPServerConnection.call_tool c t o).1 = .error (.toolUnavailable t c.config.name) := by
  unfold MCPServerConnection.call_tool
  rcases hv : c.session with _ | u
  · rw [hv] at hs; simp at hs
  · simp [hc, hv, ht]

theorem call_tool_fst_forward (c : MCPServerConnection) (t : String)
    (o : InvokeOutcome) (hc : c.is_connected = true) (hs : c.session.isSome)
    (ht : t ∈ c.available_tools) :
    (MCPServerConnection.call_tool c t o).1 =
      (match o with
       | .ok r =>
           (match r.content with
            | [] => Except.ok ToolReturn.emptyDict
            | item :: _ => Except.ok (ToolReturn.str item.text))
       | .raises msg => Except.error (McpError.invocationError msg)) := by
  unfold MCPServerConnection.call_tool
  rcases hv : c.session with _ | u
  · rw [hv] at hs; simp at hs
  · rcases o with ⟨r⟩ | m
    · rcases hr : r.content with _ | ⟨item, rest⟩ <;> simp [hc, hv, ht, hr]
    · simp [hc, hv, ht]

/-- Concrete server descriptor used in witnesses. -/
def cfgA : MCPServerConfig :=
  { name := "alpha", command := "uvx", args := ["mcp-server-filesystem"],
    env := [], enabled := true, timeout := 30, retry_attempts := 3,
    retry_delay := 1, description := "example server" }

/-- C3: connect never raises (it is a total boolean function of the connection
state and the environment outcome); it returns true and changes nothing when
already Connected; on a successful launch, handshake and tool-listing it stores
the listed tools, sets the session and the connected flag and returns true; a
handshake timeout yields false; a spawn failure or handshake rejection is
caught and yields false rather than an exception. -/
theorem claim_C3_connect_behaviour (c : MCPServerConnection) (o : ConnectOutcome) :
    (c.is_connected = true → connect c o = (true, c)) ∧
    (c.is_connected = false → ∀ tools, o = .success (some tools) →
      connect c o = (true, { c with session := some (), available_tools := tools,
                                    is_connected := true })) ∧
    (c.is_connected = false → o = .timeoutErr → connect c o = (false, c)) ∧
    (c.is_connected = false → ∀ m, o = .spawnError m ∨ o = .handshakeError m →
      (connect c o).1 = false) := by
  refine ⟨?_, ?_, ?_, ?_⟩
  · intro hc
    cases o <;> simp [connect, hc]
  · intro hc tools ho
    subst ho
    simp [connect, hc, updateAvailableTools]
  · intro hc ho
    subst ho
    simp [connect, hc]
  · intro hc m ho
    rcases ho with ho | ho <;> subst ho <;> simp [connect, hc]

/-- Witness for C3 at concrete inputs: a fresh connection with a successful
outcome, an already-connected state, a timeout and a spawn failure. -/
theorem claim_C3_connect_behaviour_witness :
    connect (initialConnection cfgA) (.success (some ["read"])) =
      (true, { initialConnection cfgA with session := some (),
                                           available_tools := ["read"],
                                           is_connected := true }) ∧
    connect (initialConnection cfgA) .timeoutErr = (false, initialConnection cfgA) ∧
    (connect (initialConnection cfgA) (.spawnError "no such file")).1 = false := by
  refine ⟨?_, ?_, ?_⟩
  · exact (claim_C3_connect_behaviour (initialConnection cfgA) _).2.1 rfl ["read"] rfl
  · exact (claim_C3_connect_behaviour (initialConnection cfgA) _).2.2.1 rfl rfl
  · exact (claim_C3_connect_behaviour (initialConnection cfgA) _).2.2.2 rfl
      "no such file" (Or.inl rfl)

/-- C5 counterexample: after one connect whose handshake raises (the session
object is assigned on line 49 of src/services/mcp_client.py before
session.initialize raises), the reachable state holds a session handle while
is_connected is false, so "session present iff Connected" fails. -/
theorem claim_C5_counterexample :
    (runOps cfgA [ConnOp.connectOp (.handshakeError "init failed")]).session.isSome = true ∧
    (runOps cfgA [ConnOp.connectOp (.handshakeError "init failed")]).is_connected = false := by
  constructor <;> rfl

/-- C5 amended: in every state reachable through connect, refresh, invoke and
disconnect operations, a Connected connection holds a session handle; the
converse direction of the original claim fails (see the counterexample). -/
theorem claim_C5_amended_connected_has_session (cfg : MCPServerConfig)
    (ops : List ConnOp) (h : (runOps cfg ops).is_connected = true) :
    (runOps cfg ops).session.isSome = true :=
  (connInv_runOps cfg ops).1 h

/-- Witness for the amended C5: a successfully connected state is Connected and
holds a session. -/
theorem claim_C5_amended_connected_has_session_witness :
    (runOps cfgA [ConnOp.connectOp (.success (some ["read"]))]).is_connected = true ∧
    (runOps cfgA [ConnOp.connectOp (.success (some ["read"]))]).session.isSome = true :=
  ⟨rfl, claim_C5_amended_connected_has_session cfgA _ rfl⟩

/-- C6: on every reachable connection state, invoking a tool raises the
NotConnected error exactly when the state is not Connected; when Connected it
raises ToolUnavailable exactly when the tool is not listed; and when Connected
with the tool listed, the call is forwarded to the session, returning the
rendered result or surfacing the session failure as the propagated invocation
error. -/
theorem claim_C6_invoke_error_discipline (cfg : MCPServerConfig) (ops : List ConnOp)
    (c : MCPServerConnection) (hreach : c = runOps cfg ops)
    (tool : String) (o : InvokeOutcome) :
    ((MCPServerConnection.call_tool c tool o).1 =
        .error (.notConnected c.config.name) ↔ c.is_connected = false) ∧
    (c.is_connected = true →
      ((MCPServerConnection.call_tool c tool o).1 =
          .error (.toolUnavailable tool c.config.name) ↔ tool ∉ c.available_tools)) ∧
    (c.is_connected = true → tool ∈ c.available_tools →
      (MCPServerConnection.call_tool c tool o).1 =
        (match o with
         | .ok r =>
             (match r.content with
              | [] => Except.ok ToolReturn.emptyDict
              | item :: _ => Except.ok (ToolReturn.str item.text))
         | .raises msg => Except.error (McpError.invocationError msg))) := by
  have hinv : c.is_connected = true → c.session.isSome := by
    rw [hreach]; exact (connInv_runOps cfg ops).1
  by_cases hc : c.is_connected = true
  · have hs : c.session.isSome = true := hinv hc
    refine ⟨?_, fun _ => ?_, fun _ ht => call_tool_fst_forward c tool o hc hs ht⟩
    · constructor
      · intro habs
        by_cases ht : tool ∈ c.available_tools
        · rw [call_tool_fst_forward c tool o hc hs ht] at habs
          rcases o with ⟨r⟩ | m
          · rcases hr : r.content with _ | ⟨item, rest⟩ <;> simp [hr] at habs
          · simp at habs
        · rw [call_tool_fst_unavailable c tool o hc hs ht] at habs
          simp at habs
      · intro hfalse
        rw [hc] at hfalse
        cases hfalse
    · constructor
      · intro habs ht
        rw [call_tool_fst_forward c tool o hc hs ht] at habs
        rcases o with ⟨r⟩ | m
        · rcases hr : r.content with _ | ⟨item, rest⟩ <;> simp [hr] at habs
        · simp at habs
      · intro ht
        exact call_tool_fst_unavailable c tool o hc hs ht
  · have hc' : c.is_connected = false := by
      cases hb : c.is_connected
      · rfl
      · exact absurd hb hc
    refine ⟨?_, ?_, ?_⟩
    · simp [call_tool_fst_not_connected c tool o hc', hc']
    · intro habs; exact absurd habs hc
    · intro habs; exact absurd habs hc

/-- Witness for C6 at concrete inputs: a disconnected fresh connection raises
NotConnected, and a connected one with the tool listed forwards a raising
session call as the invocation error. -/
theorem claim_C6_invoke_error_discipline_witness :
    (MCPServerConnection.call_tool (runOps cfgA []) "read" (.raises "boom")).1 =
      .error (.notConnected "alpha") ∧
    (MCPServerConnection.call_tool
        (runOps cfgA [ConnOp.connectOp (.success (some ["read"]))]) "read"
        (.raises "boom")).1 = .error (.invocationError "boom") := by
  constructor
  · exact (claim_C6_invoke_error_discipline cfgA [] _ rfl "read" (.raises "boom")).1.mpr rfl
  · exact (claim_C6_invoke_error_discipline cfgA [ConnOp.connectOp (.success (some ["read"]))]
      _ rfl "read" (.raises "boom")).2.2 rfl (by decide)

/-- C7: a failed invocation on a Connected connection changes nothing: the
state stays Connected and the session handle and tool set are untouched (the
method performs no assignment in any branch). -/
theorem claim_C7_failed_invoke_frame (c : MCPServerConnection) (tool : String)
    (o : InvokeOutcome) (e : McpError) (hc : c.is_connected = true)
    (_hfail : (MCPServerConnection.call_tool c tool o).1 = .error e) :
    (MCPServerConnection.call_tool c tool o).2.is_connected = true ∧
    (MCPServerConnection.call_tool c tool o).2.session = c.session ∧
    (MCPServerConnection.call_tool c tool o).2.available_tools = c.available_tools := by
  rw [call_tool_snd]
  exact ⟨hc, rfl, rfl⟩

/-- Concrete connected connection used in witnesses. -/
def connectedA : MCPServerConnection :=
  { config := cfgA, session := some (), is_connected := true,
    available_tools := ["read"] }

/-- Witness for C7: a raising session call on a connected connection leaves it
connected with its session and tools intact. -/
theorem claim_C7_failed_invoke_frame_witness :
    connectedA.is_connected = true ∧
    (MCPServerConnection.call_tool connectedA "read" (.raises "boom")).1 =
      .error (.invocationError "boom") ∧
    ((MCPServerConnection.call_tool connectedA "read" (.raises "boom")).2.is_connected = true ∧
     (MCPServerConnection.call_tool connectedA "read" (.raises "boom")).2.session =
       connectedA.session ∧
     (MCPServerConnection.call_tool connectedA "read" (.raises "boom")).2.available_tools =
       connectedA.available_tools) :=
  ⟨rfl, rfl,
    claim_C7_failed_invoke_frame connectedA "read" (.raises "boom")
      (.invocationError "boom") rfl rfl⟩

/-- C9: on every reachable connection state, a refresh that cannot obtain the
listing — either because there is no session to query or because the listing
query raises — leaves available_tools empty. -/
theorem claim_C9_failed_refresh_empties_tools (cfg : MCPServerConfig)
    (ops : List ConnOp) (listing : Option (List String))
    (hfail : (runOps cfg ops).session = none ∨ listing = none) :
    (updateAvailableTools (runOps cfg ops) listing).available_tools = [] := by
  have h2 := (connInv_runOps cfg ops).2
  rcases hs : (runOps cfg ops).session with _ | u
  · simp [updateAvailableTools, hs, h2 hs]
  · rcases hfail with hfail | hfail
    · rw [hfail] at hs; cases hs
    · subst hfail
      simp [updateAvailableTools, hs]

/-- Witness for C9: a connected server whose listing query then raises ends up
with no tools. -/
theorem claim_C9_failed_refresh_empties_tools_witness :
    ((none : Option (List String)) = none ∧
      (updateAvailableTools (runOps cfgA [ConnOp.connectOp (.success (some ["read"]))])
        none).available_tools = []) :=
  ⟨rfl, claim_C9_failed_refresh_empties_tools cfgA
    [ConnOp.connectOp (.success (some ["read"]))] none (Or.inr rfl)⟩

/-- C10: when the forwarded session invocation succeeds on a reachable
Connected connection, only the text of the first content item is returned (as
a string, not the declared dictionary), and an empty dict is returned when the
result carries no content; the structured payload and any further content
items are dropped. -/
theorem claim_C10_result_projection (cfg : MCPServerConfig) (ops : List ConnOp)
    (c : MCPServerConnection) (hreach : c = runOps cfg ops) (tool : String)
    (r : CallToolResult) (hc : c.is_connected = true)
    (ht : tool ∈ c.available_tools) :
    (r.content = [] →
      (MCPServerConnection.call_tool c tool (.ok r)).1 = .ok ToolReturn.emptyDict) ∧
    (∀ item rest, r.content = item :: rest →
      (MCPServerConnection.call_tool c tool (.ok r)).1 = .ok (.str item.text) ∧
      ToolReturn.str item.text ≠ ToolReturn.emptyDict) := by
  have hs : c.session.isSome = true := by
    rw [hreach]; exact (connInv_runOps cfg ops).1 (hreach ▸ hc)
  have hfwd := call_tool_fst_forward c tool (.ok r) hc hs ht
  constructor
  · intro hnil
    rw [hfwd]
    simp [hnil]
  · intro item rest hcons
    rw [hfwd]
    simp [hcons]

/-- Witness for C10: a two-item result on a connected server returns only the
first item's text. -/
theorem claim_C10_result_projection_witness :
    (MCPServerConnection.call_tool
        (runOps cfgA [ConnOp.connectOp (.success (some ["read"]))]) "read"
        (.ok { content := [{ text := "first", structured := "meta1" },
                           { text := "second", structured := "meta2" }] })).1 =
      .ok (.str "first") := by
  exact ((claim_C10_result_projection cfgA [ConnOp.connectOp (.success (some ["read"]))]
      _ rfl "read"
      { content := [{ text := "first", structured := "meta1" },
                    { text := "second", structured := "meta2" }] }
      (by decide) (by decide)).2
    { text := "first", structured := "meta1" }
    [{ text := "second", structured := "meta2" }] rfl).1

/-- Outcome of one call to the wrapped connect callee inside the retry loop:
a normal boolean return with the updated state, or a raised exception with
the state at the raise (caught by the loop's except branch). -/
inductive CallOutcome (σ : Type) where
  | ret (b : Bool) (s : σ)
  | raised (s : σ)

/-- Observable event of the retry loop: one connect attempt (returning true,
returning false, or raising) or one sleep of the given delay. -/
inductive RetryEvent where
  | attemptSuccess
  | attemptFailure
  | attemptRaised
  | sleep (d : ℚ)
deriving Repr, DecidableEq

/-- Embedding of the loop body of EnhancedMCPClient._connect_with_retry,
by recursion on the remaining number of attempts (fuel = retry_attempts - i
at entry of iteration i of the source's range loop).  Each attempt calls the
callee; true returns immediately; a false return or a raise sleeps the fixed
delay unless this was the final attempt; the loop ends with false.  The
boolean result, the final callee state and the event trace are returned. -/
def connectWithRetryGo {σ : Type} (d : ℚ) (callee : σ → Nat → CallOutcome σ) :
    σ → Nat → Nat → Bool × σ × List RetryEvent
  | s, _, 0 => (false, s, [])
  | s, i, fuel + 1 =>
      match callee s i with
      | .ret true s1 => (true, s1, [.attemptSuccess])
      | .ret false s1 =>
          if fuel = 0 then (false, s1, [.attemptFailure])
          else
            let rest := connectWithRetryGo d callee s1 (i + 1) fuel
            (rest.1, rest.2.1, .attemptFailure :: .sleep d :: rest.2.2)
      | .raised s1 =>
          if fuel = 0 then (false, s1, [.attemptRaised])
          else
            let rest := connectWithRetryGo d callee s1 (i + 1) fuel
            (rest.1, rest.2.1, .attemptRaised :: .sleep d :: rest.2.2)

/-- Embedding of EnhancedMCPClient._connect_with_retry: run the retry loop
for the connection's configured attempt count with its configured fixed
delay.  The loop itself never raises: the callee's raise is caught and
converted into a failed attempt. -/
def connectWithRetry {σ : Type} (cfg : MCPServerConfig)
    (callee : σ → Nat → CallOutcome σ) (s0 : σ) : Bool × σ × List RetryEvent :=
  connectWithRetryGo cfg.retry_delay callee s0 0 cfg.retry_attempts

/-- Abstract outcome of one connect() attempt as seen by the retry wrapper. -/
inductive AttemptOutcome where
  | success
  | failure
  | raised
deriving Repr, DecidableEq

/-- Stateless callee driven by a fixed schedule of attempt outcomes. -/
def pureCallee (outcomes : Nat → AttemptOutcome) : Unit → Nat → CallOutcome Unit :=
  fun _ i =>
    match outcomes i with
    | .success => .ret true ()
    | .failure => .ret false ()
    | .raised => .raised ()

/-- Trace event recorded for a non-successful attempt with this outcome. -/
def failEvent (o : AttemptOutcome) : RetryEvent :=
  match o with
  | .success => .attemptSuccess
  | .failure => .attemptFailure
  | .raised => .attemptRaised

/-- Expected trace of k consecutive non-successful attempts starting at
index i, each followed by one sleep of duration d. -/
def failPairs (outcomes : Nat → AttemptOutcome) (d : ℚ) : Nat → Nat → List RetryEvent
  | _, 0 => []
  | i, k + 1 => failEvent (outcomes i) :: .sleep d :: failPairs outcomes d (i + 1) k

theorem retryGo_first_success (outcomes : Nat → AttemptOutcome) (d : ℚ) :
    ∀ fuel i k, k < fuel → (∀ j, j < k → outcomes (i + j) ≠ .success) →
      outcomes (i + k) = .success →
      connectWithRetryGo d (pureCallee outcomes) () i fuel =
        (true, (), failPairs outcomes d i k ++ [RetryEvent.attemptSuccess]) := by
  intro fuel
  induction fuel with
  | zero => intro i k hk; omega
  | succ f ih =>
      intro i k hk hbefore hsucc
      cases k with
      | zero =>
          have h0 : outcomes i = .success := by simpa using hsucc
          simp [connectWithRetryGo, pureCallee, h0, failPairs]
      | succ k1 =>
          have h0 : outcomes i ≠ .success := by
            have := hbefore 0 (Nat.succ_pos k1)
            simpa using this
          have hf : f ≠ 0 := by omega
          have hk1 : k1 < f := by omega
          have hbefore1 : ∀ j, j < k1 → outcomes (i + 1 + j) ≠ .success := by
            intro j hj
            have := hbefore (j + 1) (by omega)
            have harith : i + (j + 1) = i + 1 + j := by omega
            rwa [harith] at this
          have hsucc1 : outcomes (i + 1 + k1) = .success := by
            have harith : i + (k1 + 1) = i + 1 + k1 := by omega
            rwa [harith] at hsucc
          have hrest := ih (i + 1) k1 hk1 hbefore1 hsucc1
          cases ho : outcomes i with
          | success => exact absurd ho h0
          | failure =>
              simp [connectWithRetryGo, pureCallee, ho, hf, hrest, failPairs, failEvent]
          | raised =>
              simp [connectWithRetryGo, pureCallee, ho, hf, hrest, failPairs, failEvent]

theorem retryGo_succ {σ : Type} (d : ℚ) (callee : σ → Nat → CallOutcome σ)
    (s : σ) (i fuel : Nat) :
    connectWithRetryGo d callee s i (fuel + 1) =
      (match callee s i with
       | .ret true s1 => (true, s1, [RetryEvent.attemptSuccess])
       | .ret false s1 =>
           if fuel = 0 then (false, s1, [RetryEvent.attemptFailure])
           else
             let rest := connectWithRetryGo d callee s1 (i + 1) fuel
             (rest.1, rest.2.1,
               RetryEvent.attemptFailure :: RetryEvent.sleep d :: rest.2.2)
       | .raised s1 =>
           if fuel = 0 then (false, s1, [RetryEvent.attemptRaised])
           else
             let rest := connectWithRetryGo d callee s1 (i + 1) fuel
             (rest.1, rest.2.1,
               RetryEvent.attemptRaised :: RetryEvent.sleep d :: rest.2.2)) := rfl

theorem retryGo_all_fail (outcomes : Nat → AttemptOutcome) (d : ℚ) :
    ∀ f i, (∀ k, k < f + 1 → outcomes (i + k) ≠ .success) →
      connectWithRetryGo d (pureCallee outcomes) () i (f + 1) =
        (false, (), failPairs outcomes d i f ++ [failEvent (outcomes (i + f))]) := by
  intro f
  induction f with
  | zero =>
      intro i hall
      have h0 : outcomes i ≠ .success := by simpa using hall 0 Nat.one_pos
      rw [retryGo_succ]
      cases ho : outcomes i with
      | success => exact absurd ho h0
      | failure => simp [pureCallee, ho, failPairs, failEvent]
      | raised => simp [pureCallee, ho, failPairs, failEvent]
  | succ f2 ih =>
      intro i hall
      have h0 : outcomes i ≠ .success := by simpa using hall 0 (Nat.succ_pos _)
      have hall1 : ∀ k, k < f2 + 1 → outcomes (i + 1 + k) ≠ .success := by
        intro k hk
        have := hall (k + 1) (by omega)
        have harith : i + (k + 1) = i + 1 + k := by omega
        rwa [harith] at this
      have hrest := ih (i + 1) hall1
      have harith : i + 1 + f2 = i + (f2 + 1) := by omega
      rw [retryGo_succ]
      cases ho : outcomes i with
      | success => exact absurd ho h0
      | failure =>
          simp only [pureCallee, ho, Nat.succ_ne_zero, if_false]
          rw [hrest]
          simp [failPairs, failEvent, ho, harith]
      | raised =>
          simp only [pureCallee, ho, Nat.succ_ne_zero, if_false]
          rw [hrest]
          simp [failPairs, failEvent, ho, harith]

/-- C2: for a descriptor with retry_attempts = n (n ≥ 1) and retry_delay = d,
the retry wrapper makes at most n attempts and never raises (its result is a
total boolean): if the first successful attempt is attempt k (zero-based,
k < n), it returns true after exactly k failed attempts each followed by one
sleep of d and a final successful attempt with no sleep after it; if all n
attempts fail, it returns false after n attempts with a sleep of d between
consecutive attempts and none after the last. -/
theorem claim_C2_connect_with_retry (cfg : MCPServerConfig)
    (outcomes : Nat → AttemptOutcome) (hn : 1 ≤ cfg.retry_attempts) :
    (∀ k, k < cfg.retry_attempts → (∀ j, j < k → outcomes j ≠ .success) →
      outcomes k = .success →
      connectWithRetry cfg (pureCallee outcomes) () =
        (true, (), failPairs outcomes cfg.retry_delay 0 k ++
          [RetryEvent.attemptSuccess])) ∧
    ((∀ k, k < cfg.retry_attempts → outcomes k ≠ .success) →
      connectWithRetry cfg (pureCallee outcomes) () =
        (false, (), failPairs outcomes cfg.retry_delay 0 (cfg.retry_attempts - 1) ++
          [failEvent (outcomes (cfg.retry_attempts - 1))])) := by
  constructor
  · intro k hk hbefore hsucc
    have := retryGo_first_success outcomes cfg.retry_delay cfg.retry_attempts 0 k hk
      (by intro j hj; simpa using hbefore j hj) (by simpa using hsucc)
    simpa [connectWithRetry] using this
  · intro hall
    obtain ⟨f, hfn⟩ : ∃ f, cfg.retry_attempts = f + 1 :=
      ⟨cfg.retry_attempts - 1, by omega⟩
    have hall2 : ∀ k, k < f + 1 → outcomes (0 + k) ≠ .success := by
      intro j hj
      simpa using hall j (by omega)
    have hgo := retryGo_all_fail outcomes cfg.retry_delay f 0 hall2
    simp only [Nat.zero_add] at hgo
    unfold connectWithRetry
    rw [hfn]
    simpa using hgo

/-- Concrete schedule for the C2 witness: the first attempt returns false,
the second raises, the third succeeds. -/
def outcomesEx : Nat → AttemptOutcome :=
  fun i => match i with
    | 0 => .failure
    | 1 => .raised
    | _ => .success

/-- Witness for C2 on cfgA (3 attempts, delay 1): two failed attempts each
followed by one sleep, then a successful third attempt and no further sleep. -/
theorem claim_C2_connect_with_retry_witness :
    connectWithRetry cfgA (pureCallee outcomesEx) () =
      (true, (), [RetryEvent.attemptFailure, RetryEvent.sleep 1,
                  RetryEvent.attemptRaised, RetryEvent.sleep 1,
                  RetryEvent.attemptSuccess]) := by
  have h := (claim_C2_connect_with_retry cfgA outcomesEx (by decide)).1 2
    (by decide) (by decide) rfl
  rw [h]
  rfl

/-- External descriptor store, from MCPConfigManager in
src/config/mcp_config.py: the name → config dict, modelled as an
insertion-ordered association list.  The YAML persistence done by
_save_config is I/O with no effect on the in-memory state and is omitted. -/
structure MCPConfigManager where
  servers : List (String × MCPServerConfig)
deriving Repr, DecidableEq

/-- Embedding of MCPConfigManager.add_server: refuse (returning false,
changing nothing) when the name is already present, otherwise insert the
config under its name and return true. -/
def MCPConfigManager.add_server (m : MCPConfigManager) (cfg : MCPServerConfig) :
    Bool × MCPConfigManager :=
  if (m.servers.lookup cfg.name).isSome then (false, m)
  else (true, { servers := m.servers ++ [(cfg.name, cfg)] })

/-- Embedding of MCPConfigManager.remove_server: refuse (returning false,
changing nothing) when the name is absent, otherwise delete the entry and
return true. -/
def MCPConfigManager.remove_server (m : MCPConfigManager) (name : String) :
    Bool × MCPConfigManager :=
  if (m.servers.lookup name).isSome then
    (true, { servers := m.servers.filter (fun p => ! (p.1 == name)) })
  else (false, m)

/-- State of EnhancedMCPClient that the routing and dynamic-mutation claims
depend on: the name → connection dict, modelled as an insertion-ordered
association list.  The operations below describe the client after
initialize() has completed, where the `await self.initialize()` at the top
of call_tool is a no-op. -/
structure EnhancedMCPClient where
  connections : List (String × MCPServerConnection)
deriving Repr, DecidableEq

/-- Python dict assignment d[k] = v on an association list: overwrite in
place when the key exists, append otherwise. -/
def insertAL {α : Type} (l : List (String × α)) (k : String) (v : α) :
    List (String × α) :=
  if (l.lookup k).isSome then l.map (fun p => if p.1 = k then (k, v) else p)
  else l ++ [(k, v)]

/-- Eligibility test used twice in EnhancedMCPClient.call_tool: the
connection is connected and lists the tool. -/
def eligibleFor (tool : String) (c : MCPServerConnection) : Prop :=
  c.is_connected = true ∧ tool ∈ c.available_tools

instance (tool : String) (c : MCPServerConnection) : Decidable (eligibleFor tool c) := by
  unfold eligibleFor
  infer_instance

/-- Embedding of the fallback loop of EnhancedMCPClient.call_tool (the
`for name, connection in self.connections.items()` scan): visit the
connections in dict order, skip any that is not connected or does not list
the tool, invoke the first eligible one and return its result, continuing
past an invocation that raises.  Alongside the optional result it returns
the ghost trace of server names on which connection.call_tool was awaited. -/
def scanConnections (conns : List (String × MCPServerConnection)) (tool : String)
    (env : String → InvokeOutcome) : Option ToolReturn × List String :=
  match conns with
  | [] => (none, [])
  | (name, c) :: rest =>
      if eligibleFor tool c then
        match (MCPServerConnection.call_tool c tool (env name)).1 with
        | .ok r => (some r, [name])
        | .error _ =>
            let r1 := scanConnections rest tool env
            (r1.1, name :: r1.2)
      else scanConnections rest tool env

/-- Embedding of EnhancedMCPClient.call_tool.  The preferred-server branch
runs only when preferred_server is truthy as a Python string (present and
non-empty) and names a managed connection; if that connection is eligible
its invocation is tried first, a success is returned and a raise is logged
and falls through; the fallback scan then runs, and if it finds nothing the
ValueError naming the tool is raised.  `env name` is the outcome
session.call_tool would produce on the server called `name` during this
call; the second component is the ghost trace of servers invoked, in
order. -/
def EnhancedMCPClient.call_tool (client : EnhancedMCPClient) (tool : String)
    (preferred : Option String) (env : String → InvokeOutcome) :
    Except McpError ToolReturn × List String :=
  let pref : Option ToolReturn × List String :=
    match preferred with
    | some p =>
        if p ≠ "" then
          match client.connections.lookup p with
          | some c =>
              if eligibleFor tool c then
                match (MCPServerConnection.call_tool c tool (env p)).1 with
                | .ok r => (some r, [p])
                | .error _ => (none, [p])
              else (none, [])
          | none => (none, [])
        else (none, [])
    | none => (none, [])
  match pref.1 with
  | some r => (.ok r, pref.2)
  | none =>
      let scan := scanConnections client.connections tool env
      match scan.1 with
      | some r => (.ok r, pref.2 ++ scan.2)
      | none => (.error (.toolNotFound tool), pref.2 ++ scan.2)

/-- Callee of the retry loop when it wraps the real connect: attempt i runs
connect against the i-th environment outcome; connect never raises (it is
total), so every call is a normal boolean return. -/
def connCallee (outcomes : Nat → ConnectOutcome) :
    MCPServerConnection → Nat → CallOutcome MCPServerConnection :=
  fun c i => .ret (connect c (outcomes i)).1 (connect c (outcomes i)).2

/-- Embedding of EnhancedMCPClient.add_server: ask the store to add the
descriptor (false if the name is already present); on success create a
fresh connection and run the retried connect against the schedule of
environment outcomes; insert the connection into the map and return true if
it connected, otherwise remove the descriptor from the store again and
return false. -/
def EnhancedMCPClient.add_server (client : EnhancedMCPClient)
    (store : MCPConfigManager) (cfg : MCPServerConfig)
    (outcomes : Nat → ConnectOutcome) :
    Bool × EnhancedMCPClient × MCPConfigManager :=
  let r1 := store.add_server cfg
  if r1.1 then
    let retry := connectWithRetry cfg (connCallee outcomes) (initialConnection cfg)
    if retry.1 then
      (true, { connections := insertAL client.connections cfg.name retry.2.1 }, r1.2)
    else
      (false, client, (r1.2.remove_server cfg.name).2)
  else (false, client, store)

/-- Embedding of EnhancedMCPClient.remove_server: if the name is in the
connection map, disconnect that connection and delete it from the map; then
ask the store to remove the descriptor and return the store's answer.  The
last component is the ghost observation of the disconnected connection that
the source discards with `del`. -/
def EnhancedMCPClient.remove_server (client : EnhancedMCPClient)
    (store : MCPConfigManager) (name : String) (closeOk : Bool) :
    Bool × EnhancedMCPClient × MCPConfigManager × Option MCPServerConnection :=
  match client.connections.lookup name with
  | some c =>
      let removedConn := disconnect c closeOk
      let client1 : EnhancedMCPClient :=
        { connections := client.connections.filter (fun p => ! (p.1 == name)) }
      let r := store.remove_server name
      (r.1, client1, r.2, some removedConn)
  | none =>
      let r := store.remove_server name
      (r.1, client, r.2, none)

theorem lookup_mem {α : Type} (l : List (String × α)) (k : String) (v : α)
    (h : l.lookup k = some v) : (k, v) ∈ l := by
  induction l with
  | nil => cases h
  | cons hd tl ih =>
      obtain ⟨k1, v1⟩ := hd
      by_cases hk : k == k1
      · have hkeq : k = k1 := by simpa using hk
        have hv : v1 = v := by simpa [List.lookup, hk] using h
        subst hkeq
        subst hv
        exact List.mem_cons_self _ _
      · have h1 : tl.lookup k = some v := by
          simpa [List.lookup, hk] using h
        exact List.mem_cons_of_mem _ (ih h1)

theorem lookup_none_forall {α : Type} (l : List (String × α)) (k : String)
    (h : l.lookup k = none) : ∀ p ∈ l, (p.1 == k) = false := by
  induction l with
  | nil => intro p hp; cases hp
  | cons hd tl ih =>
      obtain ⟨k1, v1⟩ := hd
      by_cases hk : k == k1
      · simp [List.lookup, hk] at h
      · intro p hp
        rcases List.mem_cons.mp hp with hp | hp
        · subst hp
          have hne : ¬ k = k1 := by simpa using hk
          show (k1 == k) = false
          simp only [beq_eq_false_iff_ne]
          exact fun hh => hne hh.symm
        · exact ih (by simpa [List.lookup, hk] using h) p hp

theorem scan_filter_eq (tool : String) (env : String → InvokeOutcome) :
    ∀ conns, scanConnections conns tool env =
      scanConnections (conns.filter (fun pr => decide (eligibleFor tool pr.2)))
        tool env := by
  intro conns
  induction conns with
  | nil => rfl
  | cons hd tl ih =>
      obtain ⟨name, c⟩ := hd
      by_cases he : eligibleFor tool c
      · have hfilter : ((name, c) :: tl).filter
            (fun pr => decide (eligibleFor tool pr.2)) =
            (name, c) :: tl.filter (fun pr => decide (eligibleFor tool pr.2)) := by
          simp [List.filter_cons, he]
        rw [hfilter]
        simp only [scanConnections, he, if_true]
        cases hr : (MCPServerConnection.call_tool c tool (env name)).1 with
        | ok r => simp [hr]
        | error e => simp [hr, ih]
      · have hfilter : ((name, c) :: tl).filter
            (fun pr => decide (eligibleFor tool pr.2)) =
            tl.filter (fun pr => decide (eligibleFor tool pr.2)) := by
          simp [List.filter_cons, he]
        rw [hfilter]
        simp only [scanConnections, he, if_false]
        exact ih

theorem scan_all_fail (tool : String) (env : String → InvokeOutcome) :
    ∀ conns, (∀ pr ∈ conns, eligibleFor tool pr.2 →
        ∃ e, (MCPServerConnection.call_tool pr.2 tool (env pr.1)).1 = .error e) →
      scanConnections conns tool env =
        (none, (conns.filter (fun pr => decide (eligibleFor tool pr.2))).map
          Prod.fst) := by
  intro conns
  induction conns with
  | nil => intro h; rfl
  | cons hd tl ih =>
      intro h
      obtain ⟨name, c⟩ := hd
      have htl := ih (fun pr hpr hel => h pr (List.mem_cons_of_mem _ hpr) hel)
      by_cases he : eligibleFor tool c
      · obtain ⟨e, hfail⟩ := h (name, c) (List.mem_cons_self _ _) he
        have hfilter : ((name, c) :: tl).filter
            (fun pr => decide (eligibleFor tool pr.2)) =
            (name, c) :: tl.filter (fun pr => decide (eligibleFor tool pr.2)) := by
          simp [List.filter_cons, he]
        rw [hfilter]
        simp [scanConnections, he, hfail, htl]
      · have hfilter : ((name, c) :: tl).filter
            (fun pr => decide (eligibleFor tool pr.2)) =
            tl.filter (fun pr => decide (eligibleFor tool pr.2)) := by
          simp [List.filter_cons, he]
        rw [hfilter]
        simp only [scanConnections, he, if_false]
        exact htl

theorem scan_first_success (tool : String) (env : String → InvokeOutcome) :
    ∀ l1 p c l2 r, (∀ pr ∈ l1, eligibleFor tool pr.2) → eligibleFor tool c →
      (∀ pr ∈ l1, ∃ e,
        (MCPServerConnection.call_tool pr.2 tool (env pr.1)).1 = .error e) →
      (MCPServerConnection.call_tool c tool (env p)).1 = .ok r →
      scanConnections (l1 ++ (p, c) :: l2) tool env =
        (some r, l1.map Prod.fst ++ [p]) := by
  intro l1
  induction l1 with
  | nil =>
      intro p c l2 r _ hec _ hok
      simp [scanConnections, hec, hok]
  | cons hd tl ih =>
      intro p c l2 r helig hec hfail hok
      obtain ⟨name1, c1⟩ := hd
      have he1 : eligibleFor tool c1 := helig _ (List.mem_cons_self _ _)
      obtain ⟨e, hf1⟩ := hfail _ (List.mem_cons_self _ _)
      have htl := ih p c l2 r (fun pr hpr => helig pr (List.mem_cons_of_mem _ hpr))
        hec (fun pr hpr => hfail pr (List.mem_cons_of_mem _ hpr)) hok
      simp [scanConnections, he1, hf1, htl]

/-- Descriptor identical to cfgA but with another name. -/
def cfgNamed (n : String) : MCPServerConfig := { cfgA with name := n }

/-- Connected connection named n exposing the given tools. -/
def connFor (n : String) (tools : List String) : MCPServerConnection :=
  { config := cfgNamed n, session := some (), is_connected := true,
    available_tools := tools }

/-- Client whose map holds a normally named server followed by one whose name
is the empty string. -/
def clientEmptyName : EnhancedMCPClient :=
  { connections := [("srv", connFor "srv" ["t"]), ("", connFor "" ["t"])] }

/-- Environment in which every server answers successfully, with a payload
naming the server. -/
def envEmptyName : String → InvokeOutcome :=
  fun n =>
    if n = "srv" then .ok { content := [{ text := "from-srv", structured := "" }] }
    else .ok { content := [{ text := "from-empty", structured := "" }] }

/-- C1 counterexample: preferred_server = "" names a managed, Connected
connection that exposes the tool and whose invocation would succeed with
"from-empty", yet the call returns "from-srv" from the other map entry and
the invocation trace shows the preferred connection was never invoked: the
source's truthiness test `if preferred_server and ...` treats the empty
string as absent, so the claim as stated fails for an empty preferred
name. -/
theorem claim_C1_counterexample :
    clientEmptyName.connections.lookup "" = some (connFor "" ["t"]) ∧
    eligibleFor "t" (connFor "" ["t"]) ∧
    (MCPServerConnection.call_tool (connFor "" ["t"]) "t" (envEmptyName "")).1 =
      .ok (.str "from-empty") ∧
    EnhancedMCPClient.call_tool clientEmptyName "t" (some "") envEmptyName =
      (.ok (.str "from-srv"), ["srv"]) :=
  ⟨rfl, by decide, rfl, rfl⟩

/-- C1 amended: for every call to the supervisor's call_tool with a non-empty
preferred_server (Python truthiness treats an empty name as absent): if the
preferred name maps to a Connected connection exposing the tool, it is
invoked first and its successful result returned; a failure there falls
through to the general scan; with no usable preferred server the general
scan's answer is returned; the scan skips exactly the connections that are
not Connected or do not expose the tool, visits the rest in map order and
returns the first successful invocation; and when every attempted invocation
raises, or no connection exposes the tool, the call fails with the
ToolNotFound error naming the tool. -/
theorem claim_C1_amended_routing (client : EnhancedMCPClient) (tool : String)
    (env : String → InvokeOutcome) :
    (∀ p c r, p ≠ "" → client.connections.lookup p = some c →
      eligibleFor tool c →
      (MCPServerConnection.call_tool c tool (env p)).1 = .ok r →
      client.call_tool tool (some p) env = (.ok r, [p])) ∧
    (∀ p c e, p ≠ "" → client.connections.lookup p = some c →
      eligibleFor tool c →
      (MCPServerConnection.call_tool c tool (env p)).1 = .error e →
      client.call_tool tool (some p) env =
        ((match (scanConnections client.connections tool env).1 with
          | some r => .ok r
          | none => .error (.toolNotFound tool)),
         p :: (scanConnections client.connections tool env).2)) ∧
    (∀ pref, (pref = none ∨ pref = some "" ∨
        (∃ p, pref = some p ∧ client.connections.lookup p = none) ∨
        (∃ p c, pref = some p ∧ client.connections.lookup p = some c ∧
          ¬ eligibleFor tool c)) →
      client.call_tool tool pref env =
        ((match (scanConnections client.connections tool env).1 with
          | some r => .ok r
          | none => .error (.toolNotFound tool)),
         (scanConnections client.connections tool env).2)) ∧
    (scanConnections client.connections tool env =
      scanConnections (client.connections.filter
        (fun pr => decide (eligibleFor tool pr.2))) tool env) ∧
    (∀ l1 p c l2 r,
      client.connections.filter (fun pr => decide (eligibleFor tool pr.2)) =
        l1 ++ (p, c) :: l2 →
      (∀ pr ∈ l1, ∃ e,
        (MCPServerConnection.call_tool pr.2 tool (env pr.1)).1 = .error e) →
      (MCPServerConnection.call_tool c tool (env p)).1 = .ok r →
      scanConnections client.connections tool env =
        (some r, l1.map Prod.fst ++ [p])) ∧
    (∀ pref, (∀ pr ∈ client.connections, eligibleFor tool pr.2 →
        ∃ e, (MCPServerConnection.call_tool pr.2 tool (env pr.1)).1 = .error e) →
      (client.call_tool tool pref env).1 = .error (.toolNotFound tool)) := by
  refine ⟨?_, ?_, ?_, scan_filter_eq tool env client.connections, ?_, ?_⟩
  · intro p c r hne hlook hel hok
    simp [EnhancedMCPClient.call_tool, hne, hlook, hel, hok]
  · intro p c e hne hlook hel herr
    cases hscan : (scanConnections client.connections tool env).1 with
    | some r => simp [EnhancedMCPClient.call_tool, hne, hlook, hel, herr, hscan]
    | none => simp [EnhancedMCPClient.call_tool, hne, hlook, hel, herr, hscan]
  · intro pref hcase
    rcases hcase with hcase | hcase | ⟨p, hcase, hlook⟩ | ⟨p, c, hcase, hlook, hel⟩ <;>
      subst hcase
    · cases hscan : (scanConnections client.connections tool env).1 with
      | some r => simp [EnhancedMCPClient.call_tool, hscan]
      | none => simp [EnhancedMCPClient.call_tool, hscan]
    · cases hscan : (scanConnections client.connections tool env).1 with
      | some r => simp [EnhancedMCPClient.call_tool, hscan]
      | none => simp [EnhancedMCPClient.call_tool, hscan]
    · by_cases hp : p = "" <;>
        cases hscan : (scanConnections client.connections tool env).1 <;>
        simp [EnhancedMCPClient.call_tool, hp, hlook, hscan]
    · by_cases hp : p = "" <;>
        cases hscan : (scanConnections client.connections tool env).1 <;>
        simp [EnhancedMCPClient.call_tool, hp, hlook, hel, hscan]
  · intro l1 p c l2 r hfe hfail hok
    have hmem : ∀ pr ∈ l1 ++ (p, c) :: l2, decide (eligibleFor tool pr.2) = true := by
      intro pr hpr
      rw [← hfe] at hpr
      exact (List.mem_filter.mp hpr).2
    have helig1 : ∀ pr ∈ l1, eligibleFor tool pr.2 := fun pr hpr =>
      of_decide_eq_true (hmem pr (List.mem_append_left _ hpr))
    have hec : eligibleFor tool c :=
      of_decide_eq_true (hmem (p, c)
        (List.mem_append_right _ (List.mem_cons_self _ _)))
    rw [scan_filter_eq tool env client.connections, hfe]
    exact scan_first_success tool env l1 p c l2 r helig1 hec hfail hok
  · intro pref hallfail
    have hscan := scan_all_fail tool env client.connections hallfail
    cases pref with
    | none => simp [EnhancedMCPClient.call_tool, hscan]
    | some p =>
        by_cases hp : p = ""
        · simp [EnhancedMCPClient.call_tool, hp, hscan]
        · cases hlook : client.connections.lookup p with
          | none => simp [EnhancedMCPClient.call_tool, hp, hlook, hscan]
          | some c =>
              by_cases hel : eligibleFor tool c
              · obtain ⟨e, herr⟩ := hallfail (p, c) (lookup_mem _ _ _ hlook) hel
                simp [EnhancedMCPClient.call_tool, hp, hlook, hel, herr, hscan]
              · simp [EnhancedMCPClient.call_tool, hp, hlook, hel, hscan]

/-- Client with two connected servers both exposing the tool. -/
def clientW : EnhancedMCPClient :=
  { connections := [("a", connFor "a" ["t"]), ("b", connFor "b" ["t"])] }

/-- Environment in which server b answers and every other server raises. -/
def envW : String → InvokeOutcome :=
  fun n =>
    if n = "b" then .ok { content := [{ text := "from-b", structured := "" }] }
    else .raises "net down"

/-- Witness for the amended C1: the preferred server a is invoked first, its
raise falls through to the scan, which revisits a, skips nothing else and
returns the first success, from b. -/
theorem claim_C1_amended_routing_witness :
    EnhancedMCPClient.call_tool clientW "t" (some "a") envW =
      (.ok (.str "from-b"), ["a", "a", "b"]) := by
  have h := (claim_C1_amended_routing clientW "t" envW).2.1 "a" (connFor "a" ["t"])
    (.invocationError "net down") (by decide) rfl (by decide) rfl
  rw [h]
  rfl

theorem lookup_append_right {α : Type} (l : List (String × α)) (k : String)
    (v : α) (h : l.lookup k = none) : (l ++ [(k, v)]).lookup k = some v := by
  induction l with
  | nil => simp [List.lookup]
  | cons hd tl ih =>
      obtain ⟨k1, v1⟩ := hd
      cases hk : k == k1 with
      | true => simp [List.lookup, hk] at h
      | false =>
          have h1 : tl.lookup k = none := by simpa [List.lookup, hk] using h
          simpa [List.lookup, hk] using ih h1

theorem filter_ne_of_lookup_none {α : Type} (l : List (String × α)) (k : String)
    (h : l.lookup k = none) : l.filter (fun p => ! (p.1 == k)) = l := by
  apply List.filter_eq_self.mpr
  intro p hp
  have := lookup_none_forall l k h p hp
  simp [this]

theorem add_remove_roundtrip (m : MCPConfigManager) (cfg : MCPServerConfig)
    (h : m.servers.lookup cfg.name = none) :
    (((m.add_server cfg).2).remove_server cfg.name).2 = m := by
  have h1 : m.add_server cfg =
      (true, { servers := m.servers ++ [(cfg.name, cfg)] }) := by
    simp [MCPConfigManager.add_server, h]
  rw [h1]
  have h2 : (m.servers ++ [(cfg.name, cfg)]).lookup cfg.name = some cfg :=
    lookup_append_right m.servers cfg.name cfg h
  simp [MCPConfigManager.remove_server, h2, List.filter_append,
    filter_ne_of_lookup_none m.servers cfg.name h]

/-- C4: add_server refuses (returning false, changing nothing) when the name
is already in the store; otherwise it persists the descriptor, runs the
retried connect, and on a failed connect removes the descriptor again and
returns false with both the store and the connection map exactly as before
the call; only on a successful connect is the new connection inserted into
the map, the descriptor kept in the store, and true returned. -/
theorem claim_C4_add_server (client : EnhancedMCPClient) (store : MCPConfigManager)
    (cfg : MCPServerConfig) (outcomes : Nat → ConnectOutcome) :
    ((store.servers.lookup cfg.name).isSome = true →
      client.add_server store cfg outcomes = (false, client, store)) ∧
    (store.servers.lookup cfg.name = none →
      (connectWithRetry cfg (connCallee outcomes) (initialConnection cfg)).1 = false →
      client.add_server store cfg outcomes = (false, client, store)) ∧
    (store.servers.lookup cfg.name = none →
      (connectWithRetry cfg (connCallee outcomes) (initialConnection cfg)).1 = true →
      client.add_server store cfg outcomes =
        (true,
         { connections := insertAL client.connections cfg.name
             (connectWithRetry cfg (connCallee outcomes)
               (initialConnection cfg)).2.1 },
         { servers := store.servers ++ [(cfg.name, cfg)] })) := by
  refine ⟨?_, ?_, ?_⟩
  · intro hsome
    simp [EnhancedMCPClient.add_server, MCPConfigManager.add_server, hsome]
  · intro hnone hfail
    have h1 : store.add_server cfg =
        (true, { servers := store.servers ++ [(cfg.name, cfg)] }) := by
      simp [MCPConfigManager.add_server, hnone]
    have hrt := add_remove_roundtrip store cfg hnone
    rw [h1] at hrt
    simp [EnhancedMCPClient.add_server, h1, hfail, hrt]
  · intro hnone hok
    have h1 : store.add_server cfg =
        (true, { servers := store.servers ++ [(cfg.name, cfg)] }) := by
      simp [MCPConfigManager.add_server, hnone]
    simp [EnhancedMCPClient.add_server, h1, hok]

/-- Environment whose first connect attempt succeeds with one tool. -/
def outcomesOk : Nat → ConnectOutcome := fun _ => .success (some ["read"])

/-- Environment whose every connect attempt times out. -/
def outcomesBad : Nat → ConnectOutcome := fun _ => .timeoutErr

/-- Witness for C4 on an empty client and store: a connectable descriptor is
added with its connection inserted, and an unconnectable one is rolled back
leaving the store and the map empty. -/
theorem claim_C4_add_server_witness :
    EnhancedMCPClient.add_server { connections := [] } { servers := [] } cfgA
      outcomesOk =
      (true, { connections := [("alpha", connectedA)] },
       { servers := [("alpha", cfgA)] }) ∧
    EnhancedMCPClient.add_server { connections := [] } { servers := [] } cfgA
      outcomesBad =
      (false, { connections := [] }, { servers := [] }) := by
  constructor
  · have h := (claim_C4_add_server { connections := [] } { servers := [] }
      cfgA outcomesOk).2.2 rfl rfl
    rw [h]
    rfl
  · have h := (claim_C4_add_server { connections := [] } { servers := [] }
      cfgA outcomesBad).2.1 rfl rfl
    rw [h]

/-- C8: remove_server returns true exactly when the store holds the name
(returning the store's removal verdict); when it does, the descriptor is
removed from the store; when the name is in the connection map, that
connection is disconnected (its session handle is dropped) and deleted from
the map; when it is not, the map is untouched; and the returned verdict does
not depend on whether the session close succeeded. -/
theorem claim_C8_remove_server (client : EnhancedMCPClient)
    (store : MCPConfigManager) (name : String) (closeOk : Bool) :
    ((client.remove_server store name closeOk).1 = true ↔
      (store.servers.lookup name).isSome = true) ∧
    ((store.servers.lookup name).isSome = true →
      (client.remove_server store name closeOk).2.2.1 =
        { servers := store.servers.filter (fun p => ! (p.1 == name)) }) ∧
    (∀ c, client.connections.lookup name = some c →
      (client.remove_server store name closeOk).2.1 =
        { connections := client.connections.filter (fun p => ! (p.1 == name)) } ∧
      (client.remove_server store name closeOk).2.2.2 =
        some (disconnect c closeOk) ∧
      (disconnect c closeOk).session = none ∧
      (c.session.isSome = true → (disconnect c closeOk).is_connected = false)) ∧
    (client.connections.lookup name = none →
      (client.remove_server store name closeOk).2.1 = client) ∧
    (∀ b1 b2 : Bool, (client.remove_server store name b1).1 =
      (client.remove_server store name b2).1) := by
  have hsession : ∀ c : MCPServerConnection, (disconnect c closeOk).session = none ∧
      (c.session.isSome = true → (disconnect c closeOk).is_connected = false) := by
    intro c
    rcases hs : c.session with _ | u <;> simp [disconnect, hs]
  refine ⟨?_, ?_, ?_, ?_, ?_⟩
  · cases hlook : client.connections.lookup name <;>
      cases hst : (store.servers.lookup name).isSome <;>
      simp [EnhancedMCPClient.remove_server, MCPConfigManager.remove_server,
        hlook, hst]
  · intro hst
    cases hlook : client.connections.lookup name <;>
      simp [EnhancedMCPClient.remove_server, MCPConfigManager.remove_server,
        hlook, hst]
  · intro c hlook
    refine ⟨?_, ?_, (hsession c).1, (hsession c).2⟩ <;>
      cases hst : (store.servers.lookup name).isSome <;>
      simp [EnhancedMCPClient.remove_server, MCPConfigManager.remove_server,
        hlook, hst]
  · intro hlook
    cases hst : (store.servers.lookup name).isSome <;>
      simp [EnhancedMCPClient.remove_server, MCPConfigManager.remove_server,
        hlook, hst]
  · intro b1 b2
    cases hlook : client.connections.lookup name <;>
      simp [EnhancedMCPClient.remove_server]
      <;> simp [hlook]

/-- Witness for C8 on a client managing one connected server: removal
returns true, empties the map and the store, and the discarded connection
was disconnected; on an unknown name it returns false. -/
theorem claim_C8_remove_server_witness :
    (EnhancedMCPClient.remove_server { connections := [("alpha", connectedA)] }
        { servers := [("alpha", cfgA)] } "alpha" true).1 = true ∧
    (EnhancedMCPClient.remove_server { connections := [("alpha", connectedA)] }
        { servers := [("alpha", cfgA)] } "alpha" true).2.2.1 =
      ({ servers := [] } : MCPConfigManager) ∧
    (EnhancedMCPClient.remove_server { connections := [("alpha", connectedA)] }
        { servers := [("alpha", cfgA)] } "alpha" true).2.1 =
      ({ connections := [] } : EnhancedMCPClient) ∧
    (EnhancedMCPClient.remove_server { connections := [] }
        { servers := [] } "ghost" true).1 = false := by
  have h := claim_C8_remove_server { connections := [("alpha", connectedA)] }
    { servers := [("alpha", cfgA)] } "alpha" true
  have h2 := claim_C8_remove_server { connections := [] } { servers := [] }
    "ghost" true
  refine ⟨h.1.mpr rfl, ?_, ?_, ?_⟩
  · have := h.2.1 rfl
    rw [this]
    rfl
  · have := (h.2.2.1 connectedA rfl).1
    rw [this]
    rfl
  · cases hb : (EnhancedMCPClient.remove_server { connections := [] }
        { servers := [] } "ghost" true).1
    · rfl
    · exact absurd (h2.1.mp hb) (by decide)

end AgenticFlow
